import Mathlib

/-!
# A shallow embedding of the `typed-parser` combinator engine

This file embeds the parser-combinator core of `src/index.ts` (the version in
`src/unnamed/part_003`) into Lean 4 and proves the specification claims about
it.  The TypeScript engine works over a single mutable `Context` (cursor
offset plus a diagnostic scope stack); here every parser is a state-passing
function `source → Context → result × Context`.  JavaScript strings are
modelled as `List Char`; a thrown (non-`Err`) JavaScript exception is
modelled by a dedicated result constructor that every combinator propagates
without inspecting, mirroring stack unwinding.
-/

namespace TypedParser

/-- A JavaScript string (sequence of code units; all inputs used here are ASCII). -/
abbrev Str := List Char

/-- Convert a Lean string literal to the `Str` model. -/
def str (s : String) : Str := s.data

/-- `Position` from `index.ts`: 1-based row and column. -/
structure Position where
  row : Nat
  column : Nat
deriving DecidableEq, Repr

/-- `Scope` from `index.ts`: a linked list of named frames.  The root scope is
`new Scope(0, null)` (a frame with `name = null` and no parent); every other
frame is pushed by `withContext` and carries a name. -/
inductive Scope where
  | root : Scope
  | node (offset : Nat) (name : String) (parent : Scope) : Scope
deriving DecidableEq, Repr

/-- `scope.parent`.  In the TypeScript source the root scope's `parent` is
`undefined`; that case is unreachable for scope-balanced parsers (the only
code that pops is `withContext`, which pops a frame it pushed itself), and we
model it as the root scope. -/
def Scope.parentD : Scope → Scope
  | .root => .root
  | .node _ _ p => p

/-- The mutable `Context` of `index.ts`: cursor offset plus scope stack. -/
structure Context where
  offset : Nat
  scope : Scope
deriving DecidableEq, Repr

/-- The initial context built by `run`: `offset = 0`, `scope = new Scope(0, null)`. -/
def Context.init : Context := ⟨0, .root⟩

/-- The `Err` class of `index.ts` (constructed as `new Err(context, message)`,
capturing `context.scope` and `context.offset` at construction time), together
with its subclass `OneOfErr` which additionally stores the sibling failures
collected by `oneOf`. -/
inductive Err where
  | mk (scope : Scope) (offset : Nat) (message : String) : Err
  | oneOfErr (scope : Scope) (offset : Nat) (message : String) (errors : List Err) : Err

/-- The recorded offset of a failure (`error.offset`). -/
def Err.offset : Err → Nat
  | .mk _ o _ => o
  | .oneOfErr _ o _ _ => o

/-- The recorded scope of a failure (`error.scope`). -/
def Err.scope : Err → Scope
  | .mk s _ _ => s
  | .oneOfErr s _ _ _ => s

/-- Outcome of running a parser on a context.  TypeScript parsers return
`A | Err`; additionally any JavaScript code may throw.  `ok` and `err` are the
two declared outcomes; `exn` models a thrown non-`Err` exception (a
programming error), which unwinds through every combinator untouched. -/
inductive PResult (A : Type) where
  | ok (a : A) : PResult A
  | err (e : Err) : PResult A
  | exn (msg : String) : PResult A

/-- `Parser<A> = (source, context) => A | Err`, with the context mutation made
explicit by returning the updated context. -/
def Parser (A : Type) : Type := Str → Context → PResult A × Context

/-- Result of a top-level `run`: the value, or the thrown `ParseError`
(which wraps the terminal `Err`), or a propagated non-`Err` exception. -/
inductive RunResult (A : Type) where
  | ok (a : A) : RunResult A
  | parseError (e : Err) : RunResult A
  | exn (msg : String) : RunResult A

/-- `run(parser, source)`: build a fresh context, invoke the parser; wrap an
`Err` result in a `ParseError` and throw it; return a success value as is.  A
non-`Err` exception raised inside the parser is not caught: it escapes as
itself. -/
def run {A : Type} (parser : Parser A) (source : Str) : RunResult A :=
  match parser source Context.init with
  | (.ok a, _) => .ok a
  | (.err e, _) => .parseError e
  | (.exn m, _) => .exn m

/-- Observation helper: the value produced by `run`, if any. -/
def runValue {A : Type} (parser : Parser A) (source : Str) : Option A :=
  match run parser source with
  | .ok a => some a
  | _ => none

/-- Observation helper: the recorded offset of the `ParseError` thrown by
`run`, if `run` failed with one. -/
def runErrOffset {A : Type} (parser : Parser A) (source : Str) : Option Nat :=
  match run parser source with
  | .parseError e => some e.offset
  | _ => none

/-! ## Regular expressions

`match(regexString)` compiles `new RegExp(regexString, "smy")` — a *sticky*
regex: `exec` with `lastIndex = i` either matches starting exactly at `i` or
returns `null` (and `exec` returns `null` whenever `lastIndex` exceeds the
string length).  We model a compiled sticky regex by its source text plus its
`exec`-at-an-offset function, and instantiate it for the concrete patterns the
claims use. -/

/-- A compiled sticky (`smy`-flag) JavaScript regex: `execAt source i` is the
match starting exactly at offset `i`, or `none`. -/
structure JsRegex where
  src : String
  execAt : Str → Nat → Option Str

/-- The regex denoted by a literal pattern with no metacharacters (such as
`/a/smy`, `/ab/smy`, `/@/smy`): matches exactly that text at the given offset. -/
def regexLit (s : Str) : JsRegex where
  src := String.mk s
  execAt := fun source i =>
    if i ≤ source.length then
      (if s.isPrefixOf (source.drop i) then some s else none)
    else none

/-- The regex `/.*/smy`: with the `s` flag, `.` also matches newlines, so the
greedy star matches the whole remainder of the source (possibly empty). -/
def regexDotStar : JsRegex where
  src := ".*"
  execAt := fun source i =>
    if i ≤ source.length then some (source.drop i) else none

/-- The regex `/[0-9]+/smy`: the longest nonempty run of ASCII digits starting
at the given offset. -/
def regexDigits : JsRegex where
  src := "[0-9]+"
  execAt := fun source i =>
    if i ≤ source.length then
      (let ds := (source.drop i).takeWhile Char.isDigit
       if ds.isEmpty then none else some ds)
    else none

/-! ## Primitive parsers -/

/-- `match(regexString)` from `index.ts` (named `matchP` because `match` is a
Lean keyword): run the sticky regex at the current offset; on a match, advance
the offset by the match length and return the matched string; otherwise fail
at the current offset. -/
def matchP (regexp : JsRegex) : Parser Str := fun source context =>
  match regexp.execAt source context.offset with
  | some s => (.ok s, { context with offset := context.offset + s.length })
  | none =>
    (.err (.mk context.scope context.offset ("Did not match \"" ++ regexp.src ++ "\"")),
     context)

/-- `expectString(s, name)`: exact substring match at the current offset
(`source.startsWith(s, offset)`); advances on success, fails without advancing
on mismatch. -/
def expectString (s : Str) (nm : String) : Parser Unit := fun source context =>
  if s.isPrefixOf (source.drop context.offset) then
    (.ok (), { context with offset := context.offset + s.length })
  else
    (.err (.mk context.scope context.offset
      ("Could not find " ++ nm ++ " \"" ++ String.mk s ++ "\"")), context)

/-- `symbol(s) = expectString(s, "symbol")`. -/
def symbol (s : Str) : Parser Unit := expectString s "symbol"

/-- `end` from `index.ts` (named `endP` because `end` is a Lean keyword):
succeeds iff the offset equals the source length. -/
def endP : Parser Unit := fun source context =>
  if source.length ≠ context.offset then
    (.err (.mk context.scope context.offset "Not the end of source"), context)
  else (.ok (), context)

/-- `constant(t)`: always succeeds with `t`, consuming nothing. -/
def constant {A : Type} (t : A) : Parser A := fun _ context => (.ok t, context)

/-! ## Transform combinator -/

/-- The behaviour of a `map` callback `f(value, toError)`, as observed by
`map`: it returns a transformed value, or returns the failure built by calling
`toError(message)`, or throws a non-`Err` exception. -/
inductive FResult (B : Type) where
  | ok (b : B) : FResult B
  | toError (message : String) : FResult B
  | exn (msg : String) : FResult B

/-- `map(f, parser)` from `index.ts` (named `mapP` to avoid clashing with
`List.map` etc.): remember the offset before running `parser`; on its failure,
propagate; on success, call `f`.  `toError(message)` first resets
`context.offset` to the remembered offset and then constructs
`new Err(context, message)` — so the failure is recorded at the pre-parser
offset (with the current scope).  A non-`Err` exception thrown by `f`
propagates unchanged. -/
def mapP {A B : Type} (f : A → FResult B) (parser : Parser A) : Parser B :=
  fun source context =>
    let originalOffset := context.offset
    match parser source context with
    | (.err e, c1) => (.err e, c1)
    | (.exn m, c1) => (.exn m, c1)
    | (.ok a, c1) =>
      match f a with
      | .ok b => (.ok b, c1)
      | .toError msg =>
        (.err (.mk c1.scope originalOffset msg), { c1 with offset := originalOffset })
      | .exn m => (.exn m, c1)

/-! ## Sequencing -/

/-- The projection `$1` (keep the first of two results). -/
def S1 {A B : Type} (a : A) (_ : B) : A := a

/-- The projection `$2` (keep the second of two results). -/
def S2 {A B : Type} (_ : A) (b : B) : B := b

/-- The list-building callback `(head, tail) => { tail.unshift(head); return tail; }`
used by `sepBy`/`sepBy1`/`sepUntil1`. -/
def consHT {A : Type} (head : A) (tail : List A) : List A := head :: tail

/-- `seq(map, p1, p2)`: the two-parser instance of the variadic `seq` of
`index.ts` — run the parsers left to right on the same context, return the
first failure encountered, otherwise combine the values. -/
def seq2 {A B C : Type} (f : A → B → C) (p1 : Parser A) (p2 : Parser B) : Parser C :=
  fun source context =>
    match p1 source context with
    | (.err e, c1) => (.err e, c1)
    | (.exn m, c1) => (.exn m, c1)
    | (.ok a, c1) =>
      match p2 source c1 with
      | (.err e, c2) => (.err e, c2)
      | (.exn m, c2) => (.exn m, c2)
      | (.ok b, c2) => (.ok (f a b), c2)

/-! ## Alternation and backtracking -/

/-- The loop body of `oneOf`: `total` is the number of alternatives (used in
the aggregate message), `originalOffset` the context offset recorded once
before the whole alternation began, `errors` the failures collected so far (in
reverse).  Each alternative runs on the current context; a success returns
immediately; after a failure, if the offset still equals `originalOffset` the
failure is recorded and the next alternative tried, otherwise that failure is
returned immediately.  When the alternatives are exhausted, a `OneOfErr`
aggregating the collected failures is built from the current context. -/
def oneOfLoop {A : Type} (source : Str) (total originalOffset : Nat) :
    List (Parser A) → List Err → Context → PResult A × Context
  | [], errors, context =>
    (.err (.oneOfErr context.scope context.offset
      ("None of " ++ toString total ++ " parsers was successful") errors.reverse),
     context)
  | parser :: rest, errors, context =>
    match parser source context with
    | (.ok a, c1) => (.ok a, c1)
    | (.exn m, c1) => (.exn m, c1)
    | (.err e, c1) =>
      if originalOffset = c1.offset then
        oneOfLoop source total originalOffset rest (e :: errors) c1
      else (.err e, c1)

/-- `oneOf(...parsers)` from `index.ts`, with the variadic argument list as a
Lean list. -/
def oneOf {A : Type} (parsers : List (Parser A)) : Parser A := fun source context =>
  oneOfLoop source parsers.length context.offset parsers [] context

/-- `guard(guarder, parser)`: run `guarder`; a non-`Err` result (value or
thrown exception) is returned as is and `parser` is never run; on an `Err`,
the failure is discarded and `parser` runs on the context exactly as the
failing `guarder` left it (no rollback). -/
def guard {A : Type} (guarder : Parser A) (parser : Parser A) : Parser A :=
  fun source context =>
    match guarder source context with
    | (.err _, c1) => parser source c1
    | r => r

/-- `attempt(parser)`: snapshot the offset; on an `Err` result restore the
offset to the snapshot and return that same `Err`; pass a success (or a
thrown exception, which skips the restore by unwinding) through untouched. -/
def attempt {A : Type} (parser : Parser A) : Parser A := fun source context =>
  let originalOffset := context.offset
  match parser source context with
  | (.err e, c1) => (.err e, { c1 with offset := originalOffset })
  | r => r

/-- `withContext(name, parser)`: push a named scope frame recording the
current offset, run `parser`, then set the scope to the parent of whatever
scope `parser` left behind.  A thrown exception unwinds before the pop, so the
scope is not popped on that path. -/
def withContext {A : Type} (nm : String) (parser : Parser A) : Parser A :=
  fun source context =>
    match parser source { context with scope := .node context.offset nm context.scope } with
    | (.exn m, c1) => (.exn m, c1)
    | (r, c1) => (r, { c1 with scope := c1.scope.parentD })

/-! ## Repetition

`many` and `manyUntil` are `while (true)` loops in `index.ts`.  We embed each
loop body by structural recursion on an explicit fuel; exhausting the fuel
(`none`) models an execution of the loop that never reaches a `break` or
`return`.  The wrapper parsers supply `source.length + 2` fuel, which we prove
sufficient for every parser satisfying the engine's cursor contract (the
offset never moves backwards and never exceeds the source length), and the
unreachable out-of-fuel case is mapped to a propagating exception. -/

/-- The loop body of `many`: remember the offset, run the item parser once; a
thrown exception propagates; if the offset did not change, `break` (return the
items collected so far); otherwise a failure is returned (fatal) and a value
is collected before looping. -/
def manyLoop {A : Type} (itemParser : Parser A) (source : Str) :
    Nat → List A → Context → Option (PResult (List A) × Context)
  | 0, _, _ => none
  | fuel + 1, items, context =>
    let originalOffset := context.offset
    match itemParser source context with
    | (.exn m, c1) => some (.exn m, c1)
    | (.ok a, c1) =>
      if originalOffset = c1.offset then some (.ok items.reverse, c1)
      else manyLoop itemParser source fuel (a :: items) c1
    | (.err e, c1) =>
      if originalOffset = c1.offset then some (.ok items.reverse, c1)
      else some (.err e, c1)

/-- `many(itemParser)` from `index.ts`. -/
def many {A : Type} (itemParser : Parser A) : Parser (List A) := fun source context =>
  (manyLoop itemParser source (source.length + 2) [] context).getD
    (.exn "many: loop did not terminate", context)

/-- `nextItem(separator, itemParser) = seq($2, attempt(separator), itemParser)`. -/
def nextItem {A B : Type} (separator : Parser B) (itemParser : Parser A) : Parser A :=
  seq2 S2 (attempt separator) itemParser

/-- `sepBy(separator, itemParser)`: one item followed by repeated
`attempt(separator)`-then-item, or the empty list. -/
def sepBy {A B : Type} (separator : Parser B) (itemParser : Parser A) :
    Parser (List A) :=
  oneOf
    [seq2 consHT itemParser (many (nextItem separator itemParser)),
     constant []]

/-- `sepBy1(separator, itemParser)`: one item followed by repeated
`attempt(separator)`-then-item. -/
def sepBy1 {A B : Type} (separator : Parser B) (itemParser : Parser A) :
    Parser (List A) :=
  seq2 consHT itemParser (many (nextItem separator itemParser))

/-- The loop body of `manyUntil`: run the end parser on the real context; a
non-`Err` result breaks the loop successfully with the items collected so far
(a thrown exception propagates); on an `Err` the loop continues — with the
context exactly as the failing end parser left it — by running the item
parser, whose failure is returned (fatal) and whose value is collected before
looping. -/
def manyUntilLoop {A B : Type} (endPr : Parser B) (itemParser : Parser A) (source : Str) :
    Nat → List A → Context → Option (PResult (List A) × Context)
  | 0, _, _ => none
  | fuel + 1, items, context =>
    match endPr source context with
    | (.exn m, c1) => some (.exn m, c1)
    | (.ok _, c1) => some (.ok items.reverse, c1)
    | (.err _, c1) =>
      match itemParser source c1 with
      | (.exn m, c2) => some (.exn m, c2)
      | (.err e, c2) => some (.err e, c2)
      | (.ok a, c2) => manyUntilLoop endPr itemParser source fuel (a :: items) c2

/-- `manyUntil(end, itemParser)` from `index.ts`. -/
def manyUntil {A B : Type} (endPr : Parser B) (itemParser : Parser A) :
    Parser (List A) := fun source context =>
  (manyUntilLoop endPr itemParser source (source.length + 2) [] context).getD
    (.exn "manyUntil: loop did not terminate", context)

/-- `sepUntil1(end, separator, itemParser) =
seq(cons, itemParser, manyUntil(end, seq($2, separator, itemParser)))`. -/
def sepUntil1 {A B C : Type} (endPr : Parser C) (separator : Parser B)
    (itemParser : Parser A) : Parser (List A) :=
  seq2 consHT itemParser (manyUntil endPr (seq2 S2 separator itemParser))

/-- `sepUntil(end, separator, itemParser) =
guard(map(_ => [], end), sepUntil1(end, separator, itemParser))`. -/
def sepUntil {A B C : Type} (endPr : Parser C) (separator : Parser B)
    (itemParser : Parser A) : Parser (List A) :=
  guard (mapP (fun _ => .ok []) endPr) (sepUntil1 endPr separator itemParser)

/-! ## Numbers -/

/-- The value of a list of ASCII digits read in base 10. -/
def digitsVal (ds : Str) : Nat :=
  ds.foldl (fun n c => 10 * n + (c.toNat - 48)) 0

/-- JavaScript's `parseInt` restricted to the strings this engine feeds it
(an optional sign followed by characters of a matched token): an optional
leading `-`, then the longest prefix of ASCII digits; `none` models `NaN`
(no digits at all). -/
def parseIntJS : Str → Option Int
  | '-' :: rest =>
    let ds := rest.takeWhile Char.isDigit
    if ds.isEmpty then none else some (-(digitsVal ds : Int))
  | s =>
    let ds := s.takeWhile Char.isDigit
    if ds.isEmpty then none else some (digitsVal ds : Int)

/-- `int(regexString)`: match the regex, then `parseInt` the matched string,
turning `NaN` into a failure via `toError`. -/
def int (regexp : JsRegex) : Parser Int :=
  mapP
    (fun s =>
      match parseIntJS s with
      | some n => .ok n
      | none => .toError (String.mk s ++ " is not an integer"))
    (matchP regexp)

/-! ## Positions -/

/-- `String.prototype.split("\n")` on a character list: the segments between
newline characters (always at least one segment). -/
def splitNL : Str → List Str
  | [] => [[]]
  | c :: cs =>
    if c = '\n' then [] :: splitNL cs
    else
      match splitNL cs with
      | l :: ls => (c :: l) :: ls
      | [] => [[c]]

/-- `calcPosition(source, offset)` from `index.ts`: slice `source + " "` up to
and including index `offset`, split on newlines; the row is the number of
lines and the column the length of the last line segment. -/
def calcPosition (source : Str) (offset : Nat) : Position :=
  let sub := (source ++ [' ']).take (offset + 1)
  let lines := splitNL sub
  { row := lines.length, column := (lines.getLastD []).length }

/-- The position computation exactly as the specification words it: take the
prefix of `source` itself up to and including the character at `offset`, split
it on the newline character, and return row = the number of resulting lines
and column = the length of the last line segment. -/
def calcPositionSpec (source : Str) (offset : Nat) : Position :=
  let lines := splitNL (source.take (offset + 1))
  { row := lines.length, column := (lines.getLastD []).length }

/-! ## The cursor contract

Every parser built from this library's primitives and combinators satisfies
the contract stated by the specification's data model: the offset is
monotonically non-decreasing (backtracking only restores snapshots taken at or
after the parser's own start) and never exceeds the source length.  The
following predicates express the contract for an arbitrary parser value. -/

/-- The offset never moves backwards across a parser invocation. -/
def OffsetMono {A : Type} (p : Parser A) : Prop :=
  ∀ s c r c', p s c = (r, c') → c.offset ≤ c'.offset

/-- A parser never pushes the offset beyond the source length (an offset that
already exceeds it can only stay where it is or shrink back towards it). -/
def OffsetBounded {A : Type} (p : Parser A) : Prop :=
  ∀ s c r c', p s c = (r, c') → c'.offset ≤ max c.offset s.length

/-- Every failure a parser returns is recorded at an offset at least the
offset at which the parser started. -/
def ErrOffsetGE {A : Type} (p : Parser A) : Prop :=
  ∀ s c e c', p s c = (.err e, c') → c.offset ≤ e.offset

/-- A sticky regex only ever matches text lying inside the source. -/
def RegexBounded (re : JsRegex) : Prop :=
  ∀ s i m, re.execAt s i = some m → i + m.length ≤ s.length

theorem regexBounded_lit (pat : Str) : RegexBounded (regexLit pat) := by
  intro s i m h
  unfold regexLit at h
  simp only at h
  split at h
  next hle =>
    split at h
    next hpre =>
      cases h
      have hlen := (List.isPrefixOf_iff_prefix.mp hpre).length_le
      rw [List.length_drop] at hlen
      omega
    next => cases h
  next => cases h

theorem regexBounded_dotStar : RegexBounded regexDotStar := by
  intro s i m h
  unfold regexDotStar at h
  simp only at h
  split at h
  · cases h
    simp [List.length_drop]
    omega
  · cases h

theorem regexBounded_digits : RegexBounded regexDigits := by
  intro s i m h
  unfold regexDigits at h
  simp only at h
  split at h
  next hle =>
    split at h
    next => cases h
    next hne =>
      cases h
      have h1 := (List.takeWhile_sublist (l := s.drop i) (p := Char.isDigit)).length_le
      rw [List.length_drop] at h1
      omega
  next => cases h

/-! ### Primitive parsers satisfy the contract -/

theorem offsetMono_matchP (re : JsRegex) : OffsetMono (matchP re) := by
  intro s c r c' h
  unfold matchP at h
  split at h <;> cases h <;> simp

theorem offsetBounded_matchP (re : JsRegex) (hre : RegexBounded re) :
    OffsetBounded (matchP re) := by
  intro s c r c' h
  unfold matchP at h
  split at h
  · rename_i m hm
    cases h
    have := hre s c.offset m hm
    simp
    omega
  · cases h
    simp

/-- On failure, `match` records the failure exactly at the (unmoved) current
offset and scope. -/
theorem errEq_matchP (re : JsRegex) (s : Str) (c : Context) (e : Err) (c' : Context)
    (h : matchP re s c = (.err e, c')) :
    c' = c ∧ e = .mk c.scope c.offset ("Did not match \"" ++ re.src ++ "\"") := by
  unfold matchP at h
  split at h <;> cases h
  exact ⟨rfl, rfl⟩

theorem errGE_matchP (re : JsRegex) : ErrOffsetGE (matchP re) := by
  intro s c e c' h
  obtain ⟨-, he⟩ := errEq_matchP re s c e c' h
  subst he
  simp [Err.offset]

theorem offsetMono_expectString (pat : Str) (nm : String) :
    OffsetMono (expectString pat nm) := by
  intro s c r c' h
  unfold expectString at h
  split at h <;> cases h <;> simp

theorem offsetBounded_expectString (pat : Str) (nm : String) :
    OffsetBounded (expectString pat nm) := by
  intro s c r c' h
  unfold expectString at h
  split at h
  next hpre =>
    cases h
    have hlen := (List.isPrefixOf_iff_prefix.mp hpre).length_le
    rw [List.length_drop] at hlen
    dsimp only
    omega
  next =>
    cases h
    simp

/-- On failure, `expectString` records the failure exactly at the (unmoved)
current offset and scope. -/
theorem errEq_expectString (pat : Str) (nm : String) (s : Str) (c : Context)
    (e : Err) (c' : Context) (h : expectString pat nm s c = (.err e, c')) :
    c' = c ∧
      e = .mk c.scope c.offset
        ("Could not find " ++ nm ++ " \"" ++ String.mk pat ++ "\"") := by
  unfold expectString at h
  split at h <;> cases h
  exact ⟨rfl, rfl⟩

theorem errGE_expectString (pat : Str) (nm : String) :
    ErrOffsetGE (expectString pat nm) := by
  intro s c e c' h
  obtain ⟨-, he⟩ := errEq_expectString pat nm s c e c' h
  subst he
  simp [Err.offset]

theorem offsetMono_endP : OffsetMono endP := by
  intro s c r c' h
  unfold endP at h
  split at h <;> cases h <;> simp

/-- On failure, `end` records the failure exactly at the (unmoved) current
offset and scope. -/
theorem errEq_endP (s : Str) (c : Context) (e : Err) (c' : Context)
    (h : endP s c = (.err e, c')) :
    c' = c ∧ e = .mk c.scope c.offset "Not the end of source" := by
  unfold endP at h
  split at h <;> cases h
  exact ⟨rfl, rfl⟩

theorem errGE_endP : ErrOffsetGE endP := by
  intro s c e c' h
  obtain ⟨-, he⟩ := errEq_endP s c e c' h
  subst he
  simp [Err.offset]

theorem offsetMono_constant {A : Type} (t : A) : OffsetMono (constant t) := by
  intro s c r c' h
  cases h
  simp

theorem offsetBounded_constant {A : Type} (t : A) : OffsetBounded (constant t) := by
  intro s c r c' h
  cases h
  simp

theorem errGE_constant {A : Type} (t : A) : ErrOffsetGE (constant t) := by
  intro s c e c' h
  cases h

/-! ### Combinators preserve the contract -/

theorem offsetMono_seq2 {A B C' : Type} (f : A → B → C') (p1 : Parser A)
    (p2 : Parser B) (h1 : OffsetMono p1) (h2 : OffsetMono p2) :
    OffsetMono (seq2 f p1 p2) := by
  intro s c r c' h
  unfold seq2 at h
  rcases hp1 : p1 s c with ⟨r1, c1⟩
  rw [hp1] at h
  cases r1 with
  | err e => cases h; exact h1 s c _ _ hp1
  | exn m => cases h; exact h1 s c _ _ hp1
  | ok a =>
    dsimp only at h
    rcases hp2 : p2 s c1 with ⟨r2, c2⟩
    rw [hp2] at h
    cases r2 <;> cases h <;> exact le_trans (h1 s c _ _ hp1) (h2 s c1 _ _ hp2)

theorem offsetBounded_seq2 {A B C' : Type} (f : A → B → C') (p1 : Parser A)
    (p2 : Parser B) (h1 : OffsetBounded p1)
    (h2 : OffsetBounded p2) : OffsetBounded (seq2 f p1 p2) := by
  intro s c r c' h
  unfold seq2 at h
  rcases hp1 : p1 s c with ⟨r1, c1⟩
  rw [hp1] at h
  cases r1 with
  | err e => cases h; exact h1 s c _ _ hp1
  | exn m => cases h; exact h1 s c _ _ hp1
  | ok a =>
    have hb1 := h1 s c _ _ hp1
    dsimp only at h
    rcases hp2 : p2 s c1 with ⟨r2, c2⟩
    rw [hp2] at h
    have hb2 := h2 s c1 _ _ hp2
    cases r2 <;> cases h <;> omega

theorem errGE_seq2 {A B C' : Type} (f : A → B → C') (p1 : Parser A)
    (p2 : Parser B) (hm1 : OffsetMono p1) (h1 : ErrOffsetGE p1)
    (h2 : ErrOffsetGE p2) : ErrOffsetGE (seq2 f p1 p2) := by
  intro s c e c' h
  unfold seq2 at h
  rcases hp1 : p1 s c with ⟨r1, c1⟩
  rw [hp1] at h
  cases r1 with
  | err e1 => cases h; exact h1 s c _ _ hp1
  | exn m => cases h
  | ok a =>
    dsimp only at h
    rcases hp2 : p2 s c1 with ⟨r2, c2⟩
    rw [hp2] at h
    cases r2 with
    | err e2 => cases h; exact le_trans (hm1 s c _ _ hp1) (h2 s c1 _ _ hp2)
    | exn m => cases h
    | ok b => cases h

theorem offsetMono_mapP {A B : Type} (f : A → FResult B) (p : Parser A)
    (hm : OffsetMono p) : OffsetMono (mapP f p) := by
  intro s c r c' h
  unfold mapP at h
  rcases hp : p s c with ⟨r1, c1⟩
  rw [hp] at h
  cases r1 with
  | err e => cases h; exact hm s c _ _ hp
  | exn m => cases h; exact hm s c _ _ hp
  | ok a =>
    dsimp only at h
    cases hf : f a <;> rw [hf] at h <;> cases h
    · exact hm s c _ _ hp
    · simp
    · exact hm s c _ _ hp

theorem offsetBounded_mapP {A B : Type} (f : A → FResult B) (p : Parser A)
    (hb : OffsetBounded p) : OffsetBounded (mapP f p) := by
  intro s c r c' h
  unfold mapP at h
  rcases hp : p s c with ⟨r1, c1⟩
  rw [hp] at h
  cases r1 with
  | err e => cases h; exact hb s c _ _ hp
  | exn m => cases h; exact hb s c _ _ hp
  | ok a =>
    dsimp only at h
    cases hf : f a <;> rw [hf] at h <;> cases h
    · exact hb s c _ _ hp
    · simp
    · exact hb s c _ _ hp

theorem errGE_mapP {A B : Type} (f : A → FResult B) (p : Parser A)
    (he : ErrOffsetGE p) : ErrOffsetGE (mapP f p) := by
  intro s c e c' h
  unfold mapP at h
  rcases hp : p s c with ⟨r1, c1⟩
  rw [hp] at h
  cases r1 with
  | err e1 => cases h; exact he s c _ _ hp
  | exn m => cases h
  | ok a =>
    dsimp only at h
    cases hf : f a <;> rw [hf] at h <;> cases h
    simp [Err.offset]

theorem offsetMono_attempt {A : Type} (p : Parser A) (hm : OffsetMono p) :
    OffsetMono (attempt p) := by
  intro s c r c' h
  unfold attempt at h
  rcases hp : p s c with ⟨r1, c1⟩
  rw [hp] at h
  cases r1 <;> cases h
  · exact hm s c _ _ hp
  · simp
  · exact hm s c _ _ hp

theorem offsetBounded_attempt {A : Type} (p : Parser A) (hb : OffsetBounded p) :
    OffsetBounded (attempt p) := by
  intro s c r c' h
  unfold attempt at h
  rcases hp : p s c with ⟨r1, c1⟩
  rw [hp] at h
  cases r1 <;> cases h
  · exact hb s c _ _ hp
  · simp
  · exact hb s c _ _ hp

theorem errGE_attempt {A : Type} (p : Parser A) (he : ErrOffsetGE p) :
    ErrOffsetGE (attempt p) := by
  intro s c e c' h
  unfold attempt at h
  rcases hp : p s c with ⟨r1, c1⟩
  rw [hp] at h
  cases r1 <;> cases h
  exact he s c _ _ hp

/-- The rollback performed by `attempt` never rewrites the failure itself: the
`Err` object returned is exactly the one the inner parser produced (in
particular its recorded offset survives the rollback), only the context's
offset is restored. -/
theorem attempt_err_unchanged {A : Type} (p : Parser A) (s : Str) (c : Context)
    (e : Err) (c' : Context) (h : attempt p s c = (.err e, c')) :
    ∃ c1, p s c = (.err e, c1) ∧ c' = { c1 with offset := c.offset } := by
  unfold attempt at h
  rcases hp : p s c with ⟨r1, c1⟩
  rw [hp] at h
  cases r1 <;> cases h
  exact ⟨c1, rfl, rfl⟩

theorem offsetMono_guard {A : Type} (g p : Parser A) (hg : OffsetMono g)
    (hp : OffsetMono p) : OffsetMono (guard g p) := by
  intro s c r c' h
  unfold guard at h
  rcases hgr : g s c with ⟨r1, c1⟩
  rw [hgr] at h
  cases r1 with
  | err e => exact le_trans (hg s c _ _ hgr) (hp s c1 _ _ h)
  | exn m => cases h; exact hg s c _ _ hgr
  | ok a => cases h; exact hg s c _ _ hgr

theorem offsetBounded_guard {A : Type} (g p : Parser A)
    (hg : OffsetBounded g) (hp : OffsetBounded p) : OffsetBounded (guard g p) := by
  intro s c r c' h
  unfold guard at h
  rcases hgr : g s c with ⟨r1, c1⟩
  rw [hgr] at h
  cases r1 with
  | err e =>
    have := hg s c _ _ hgr
    have := hp s c1 _ _ h
    omega
  | exn m => cases h; exact hg s c _ _ hgr
  | ok a => cases h; exact hg s c _ _ hgr

theorem errGE_guard {A : Type} (g p : Parser A) (hgm : OffsetMono g)
    (hp : ErrOffsetGE p) : ErrOffsetGE (guard g p) := by
  intro s c e c' h
  unfold guard at h
  rcases hgr : g s c with ⟨r1, c1⟩
  rw [hgr] at h
  cases r1 with
  | err e1 => exact le_trans (hgm s c _ _ hgr) (hp s c1 _ _ h)
  | exn m => cases h
  | ok a => cases h

theorem offsetMono_withContext {A : Type} (nm : String) (p : Parser A)
    (hm : OffsetMono p) : OffsetMono (withContext nm p) := by
  intro s c r c' h
  unfold withContext at h
  rcases hp : p s { c with scope := .node c.offset nm c.scope } with ⟨r1, c1⟩
  rw [hp] at h
  have key := hm s _ _ _ hp
  cases r1 <;> cases h <;> simpa using key

theorem offsetBounded_withContext {A : Type} (nm : String) (p : Parser A)
    (hb : OffsetBounded p) : OffsetBounded (withContext nm p) := by
  intro s c r c' h
  unfold withContext at h
  rcases hp : p s { c with scope := .node c.offset nm c.scope } with ⟨r1, c1⟩
  rw [hp] at h
  have key := hb s _ _ _ hp
  cases r1 <;> cases h <;> simpa using key

theorem errGE_withContext {A : Type} (nm : String) (p : Parser A)
    (he : ErrOffsetGE p) : ErrOffsetGE (withContext nm p) := by
  intro s c e c' h
  unfold withContext at h
  rcases hp : p s { c with scope := .node c.offset nm c.scope } with ⟨r1, c1⟩
  rw [hp] at h
  cases r1 <;> cases h
  simpa using he s _ _ _ hp

theorem offsetMono_oneOfLoop {A : Type} (s : Str) (total oo : Nat)
    (ps : List (Parser A)) (hps : ∀ p ∈ ps, OffsetMono p) :
    ∀ errors c r c', oo = c.offset → oneOfLoop s total oo ps errors c = (r, c') →
      c.offset ≤ c'.offset := by
  induction ps with
  | nil =>
    intro errors c r c' hoo h
    unfold oneOfLoop at h
    cases h
    simp
  | cons p rest ih =>
    intro errors c r c' hoo h
    unfold oneOfLoop at h
    rcases hp : p s c with ⟨r1, c1⟩
    rw [hp] at h
    have hpm := hps p (by simp)
    cases r1 with
    | ok a => cases h; exact hpm s c _ _ hp
    | exn m => cases h; exact hpm s c _ _ hp
    | err e =>
      dsimp only at h
      split at h
      next heq =>
        have hrec := ih (fun q hq => hps q (by simp [hq])) (e :: errors) c1 r c'
          heq h
        omega
      next hne => cases h; exact hpm s c _ _ hp

theorem offsetMono_oneOf {A : Type} (ps : List (Parser A))
    (hps : ∀ p ∈ ps, OffsetMono p) : OffsetMono (oneOf ps) := by
  intro s c r c' h
  exact offsetMono_oneOfLoop s ps.length c.offset ps hps [] c r c' rfl h

theorem offsetBounded_oneOfLoop {A : Type} (s : Str) (total oo : Nat)
    (ps : List (Parser A)) (hps : ∀ p ∈ ps, OffsetBounded p) :
    ∀ errors c r c', oo = c.offset → oneOfLoop s total oo ps errors c = (r, c') →
      c'.offset ≤ max c.offset s.length := by
  induction ps with
  | nil =>
    intro errors c r c' hoo h
    unfold oneOfLoop at h
    cases h
    simp
  | cons p rest ih =>
    intro errors c r c' hoo h
    unfold oneOfLoop at h
    rcases hp : p s c with ⟨r1, c1⟩
    rw [hp] at h
    have hpb := hps p (by simp)
    cases r1 with
    | ok a => cases h; exact hpb s c _ _ hp
    | exn m => cases h; exact hpb s c _ _ hp
    | err e =>
      dsimp only at h
      split at h
      next heq =>
        have hrec := ih (fun q hq => hps q (by simp [hq])) (e :: errors) c1 r c'
          heq h
        omega
      next hne => cases h; exact hpb s c _ _ hp

theorem offsetBounded_oneOf {A : Type} (ps : List (Parser A))
    (hps : ∀ p ∈ ps, OffsetBounded p) : OffsetBounded (oneOf ps) := by
  intro s c r c' h
  exact offsetBounded_oneOfLoop s ps.length c.offset ps hps [] c r c' rfl h

theorem errGE_oneOfLoop {A : Type} (s : Str) (total oo : Nat)
    (ps : List (Parser A)) (hps : ∀ p ∈ ps, ErrOffsetGE p) :
    ∀ errors c e c', oo = c.offset → oneOfLoop s total oo ps errors c = (.err e, c') →
      c.offset ≤ e.offset := by
  induction ps with
  | nil =>
    intro errors c e c' hoo h
    unfold oneOfLoop at h
    cases h
    simp [Err.offset]
  | cons p rest ih =>
    intro errors c e c' hoo h
    unfold oneOfLoop at h
    rcases hp : p s c with ⟨r1, c1⟩
    rw [hp] at h
    have hpe := hps p (by simp)
    cases r1 with
    | ok a => cases h
    | exn m => cases h
    | err e1 =>
      dsimp only at h
      split at h
      next heq =>
        have hrec := ih (fun q hq => hps q (by simp [hq])) (e1 :: errors) c1 e c'
          heq h
        omega
      next hne => cases h; exact hpe s c _ _ hp

theorem errGE_oneOf {A : Type} (ps : List (Parser A))
    (hps : ∀ p ∈ ps, ErrOffsetGE p) : ErrOffsetGE (oneOf ps) := by
  intro s c e c' h
  exact errGE_oneOfLoop s ps.length c.offset ps hps [] c e c' rfl h

theorem offsetMono_manyLoop {A : Type} (item : Parser A) (s : Str)
    (hm : OffsetMono item) :
    ∀ fuel items c r c', manyLoop item s fuel items c = some (r, c') →
      c.offset ≤ c'.offset := by
  intro fuel
  induction fuel with
  | zero => intro items c r c' h; cases h
  | succ fuel ih =>
    intro items c r c' h
    unfold manyLoop at h
    rcases hi : item s c with ⟨r1, c1⟩
    rw [hi] at h
    have him := hm s c _ _ hi
    cases r1 with
    | exn m => cases h; exact him
    | ok a =>
      dsimp only at h
      split at h
      · cases h; exact him
      · have := ih (a :: items) c1 r c' h
        omega
    | err e =>
      dsimp only at h
      split at h <;> cases h <;> exact him

theorem offsetMono_many {A : Type} (item : Parser A) (hm : OffsetMono item) :
    OffsetMono (many item) := by
  intro s c r c' h
  unfold many at h
  rcases hl : manyLoop item s (s.length + 2) [] c with _ | ⟨r1, c1⟩
  · rw [hl] at h
    cases h
    simp
  · rw [hl] at h
    cases h
    exact offsetMono_manyLoop item s hm _ [] c _ _ hl

theorem offsetBounded_manyLoop {A : Type} (item : Parser A) (s : Str)
    (hm : OffsetBounded item) :
    ∀ fuel items c r c', manyLoop item s fuel items c = some (r, c') →
      c'.offset ≤ max c.offset s.length := by
  intro fuel
  induction fuel with
  | zero => intro items c r c' h; cases h
  | succ fuel ih =>
    intro items c r c' h
    unfold manyLoop at h
    rcases hi : item s c with ⟨r1, c1⟩
    rw [hi] at h
    have hib := hm s c _ _ hi
    cases r1 with
    | exn m => cases h; exact hib
    | ok a =>
      dsimp only at h
      split at h
      · cases h; exact hib
      · have := ih (a :: items) c1 r c' h
        omega
    | err e =>
      dsimp only at h
      split at h <;> cases h <;> exact hib

theorem offsetBounded_many {A : Type} (item : Parser A) (hb : OffsetBounded item) :
    OffsetBounded (many item) := by
  intro s c r c' h
  unfold many at h
  rcases hl : manyLoop item s (s.length + 2) [] c with _ | ⟨r1, c1⟩
  · rw [hl] at h
    cases h
    simp
  · rw [hl] at h
    cases h
    exact offsetBounded_manyLoop item s hb _ [] c _ _ hl

theorem errGE_manyLoop {A : Type} (item : Parser A) (s : Str)
    (hm : OffsetMono item) (he : ErrOffsetGE item) :
    ∀ fuel items c e c', manyLoop item s fuel items c = some (.err e, c') →
      c.offset ≤ e.offset := by
  intro fuel
  induction fuel with
  | zero => intro items c e c' h; cases h
  | succ fuel ih =>
    intro items c e c' h
    unfold manyLoop at h
    rcases hi : item s c with ⟨r1, c1⟩
    rw [hi] at h
    have him := hm s c _ _ hi
    cases r1 with
    | exn m => cases h
    | ok a =>
      dsimp only at h
      split at h
      · cases h
      · have := ih (a :: items) c1 e c' h
        omega
    | err e1 =>
      dsimp only at h
      split at h <;> cases h
      exact he s c _ _ hi

theorem errGE_many {A : Type} (item : Parser A) (hm : OffsetMono item)
    (he : ErrOffsetGE item) : ErrOffsetGE (many item) := by
  intro s c e c' h
  unfold many at h
  rcases hl : manyLoop item s (s.length + 2) [] c with _ | ⟨r1, c1⟩
  · rw [hl] at h
    cases h
  · rw [hl] at h
    cases h
    exact errGE_manyLoop item s hm he _ [] c _ _ hl

/-- Termination of the `many` loop: for any item parser satisfying the cursor
contract, the `while (true)` loop of `many` reaches its `break` or `return`
within `source.length + 2` iterations (each continuing iteration strictly
advances the offset, which stays within the source). -/
theorem manyLoop_total {A : Type} (item : Parser A) (s : Str)
    (hm : OffsetMono item) (hb : OffsetBounded item) :
    ∀ fuel c items, 1 ≤ fuel → s.length + 1 ≤ fuel + c.offset →
      (manyLoop item s fuel items c).isSome := by
  intro fuel
  induction fuel with
  | zero => intro c items h1 _; cases h1
  | succ fuel ih =>
    intro c items _ hge
    unfold manyLoop
    rcases hi : item s c with ⟨r1, c1⟩
    have him := hm s c _ _ hi
    have hib := hb s c _ _ hi
    cases r1 with
    | exn m => simp
    | err e =>
      dsimp only
      split <;> simp
    | ok a =>
      dsimp only
      split
      · simp
      next hne =>
        have h1 : c.offset < c1.offset := by omega
        have h2 : c1.offset ≤ s.length := by omega
        exact ih c1 (a :: items) (by omega) (by omega)

/-- `many` never falls off the end of its fuel for a contract-satisfying item
parser: its result is exactly what the loop produces. -/
theorem many_eq_loop {A : Type} (item : Parser A) (hm : OffsetMono item)
    (hb : OffsetBounded item) (s : Str) (c : Context) :
    ∃ out, manyLoop item s (s.length + 2) [] c = some out ∧
      many item s c = out := by
  have h := manyLoop_total item s hm hb (s.length + 2) c [] (by omega) (by omega)
  rcases hl : manyLoop item s (s.length + 2) [] c with _ | out
  · rw [hl] at h
    cases h
  · exact ⟨out, rfl, by unfold many; rw [hl]; rfl⟩

theorem offsetMono_manyUntilLoop {A B : Type} (endPr : Parser B)
    (item : Parser A) (s : Str) (hem : OffsetMono endPr) (him : OffsetMono item) :
    ∀ fuel items c r c', manyUntilLoop endPr item s fuel items c = some (r, c') →
      c.offset ≤ c'.offset := by
  intro fuel
  induction fuel with
  | zero => intro items c r c' h; cases h
  | succ fuel ih =>
    intro items c r c' h
    unfold manyUntilLoop at h
    rcases hepr : endPr s c with ⟨r1, c1⟩
    rw [hepr] at h
    have he1 := hem s c _ _ hepr
    cases r1 with
    | exn m => cases h; exact he1
    | ok b => cases h; exact he1
    | err e =>
      dsimp only at h
      rcases hi : item s c1 with ⟨r2, c2⟩
      rw [hi] at h
      have hi1 := him s c1 _ _ hi
      cases r2 with
      | exn m => cases h; omega
      | err e2 => cases h; omega
      | ok a =>
        have := ih (a :: items) c2 r c' h
        omega

theorem offsetMono_manyUntil {A B : Type} (endPr : Parser B) (item : Parser A)
    (hem : OffsetMono endPr) (him : OffsetMono item) :
    OffsetMono (manyUntil endPr item) := by
  intro s c r c' h
  unfold manyUntil at h
  rcases hl : manyUntilLoop endPr item s (s.length + 2) [] c with _ | ⟨r1, c1⟩
  · rw [hl] at h
    cases h
    simp
  · rw [hl] at h
    cases h
    exact offsetMono_manyUntilLoop endPr item s hem him _ [] c _ _ hl

theorem errGE_manyUntilLoop {A B : Type} (endPr : Parser B) (item : Parser A)
    (s : Str) (hem : OffsetMono endPr) (him : OffsetMono item)
    (hie : ErrOffsetGE item) :
    ∀ fuel items c e c', manyUntilLoop endPr item s fuel items c = some (.err e, c') →
      c.offset ≤ e.offset := by
  intro fuel
  induction fuel with
  | zero => intro items c e c' h; cases h
  | succ fuel ih =>
    intro items c e c' h
    unfold manyUntilLoop at h
    rcases hepr : endPr s c with ⟨r1, c1⟩
    rw [hepr] at h
    have he1 := hem s c _ _ hepr
    cases r1 with
    | exn m => cases h
    | ok b => cases h
    | err e1 =>
      dsimp only at h
      rcases hi : item s c1 with ⟨r2, c2⟩
      rw [hi] at h
      cases r2 with
      | exn m => cases h
      | err e2 =>
        cases h
        have := hie s c1 _ _ hi
        omega
      | ok a =>
        have hi1 := him s c1 _ _ hi
        have := ih (a :: items) c2 e c' h
        omega

theorem errGE_manyUntil {A B : Type} (endPr : Parser B) (item : Parser A)
    (hem : OffsetMono endPr) (him : OffsetMono item) (hie : ErrOffsetGE item) :
    ErrOffsetGE (manyUntil endPr item) := by
  intro s c e c' h
  unfold manyUntil at h
  rcases hl : manyUntilLoop endPr item s (s.length + 2) [] c with _ | ⟨r1, c1⟩
  · rw [hl] at h
    cases h
  · rw [hl] at h
    cases h
    exact errGE_manyUntilLoop endPr item s hem him hie _ [] c _ _ hl

/-! ## The claims -/

/-- C8: for every source string and every offset pointing at a character of it
(`offset < source.length`), `calcPosition(source, offset)` equals the result
of taking the prefix of the source up to and including the character at
`offset`, splitting it on the newline character, and returning row = the
number of resulting lines and column = the length of the last line segment
(both 1-based); in particular `calcPosition("ab\ncd", 4) = {row: 2, column: 2}`.
(The `source + " "` padding in the code is invisible as long as the offset
points at a real character.) -/
theorem claim_C8_calcPosition :
    (∀ (source : Str) (offset : Nat), offset < source.length →
      calcPosition source offset = calcPositionSpec source offset) ∧
    calcPosition (str "ab\ncd") 4 = ⟨2, 2⟩ := by
  constructor
  · intro source offset h
    unfold calcPosition calcPositionSpec
    have htake : (source ++ [' ']).take (offset + 1) = source.take (offset + 1) := by
      rw [List.take_append_eq_append_take]
      have h0 : offset + 1 - source.length = 0 := by omega
      rw [h0]
      simp
    rw [htake]
  · rfl

theorem claim_C8_calcPosition_witness :
    4 < (str "ab\ncd").length ∧
      calcPosition (str "ab\ncd") 4 = calcPositionSpec (str "ab\ncd") 4 :=
  ⟨by decide, claim_C8_calcPosition.1 (str "ab\ncd") 4 (by decide)⟩

/-- C5: `sepBy(sep, item)` parses `item`, then repeatedly parses `sep` wrapped
in `attempt` followed by `item` (the `nextItem` shape), and tolerates zero
items; with `sep = symbol(",")` and `item` an integer parser it succeeds with
`[]` on `""`, succeeds with `[1, 2]` on `"1,2"`, and fails on `"1,"` with the
failure recorded at offset 2, just past the trailing comma. -/
theorem claim_C5_sepBy :
    (∀ (B A : Type) (sep : Parser B) (item : Parser A),
      sepBy sep item =
        oneOf [seq2 consHT item (many (nextItem sep item)), constant []] ∧
      nextItem sep item = seq2 S2 (attempt sep) item) ∧
    runValue (sepBy (symbol (str ",")) (int regexDigits)) (str "") = some [] ∧
    runValue (sepBy (symbol (str ",")) (int regexDigits)) (str "1,2") =
      some [1, 2] ∧
    runErrOffset (sepBy (symbol (str ",")) (int regexDigits)) (str "1,") =
      some 2 :=
  ⟨fun _ _ _ _ => ⟨rfl, rfl⟩, rfl, rfl, rfl⟩

/-- C2: `attempt(p)` snapshots the context offset; if `p` returns a Failure,
`attempt` restores the offset to the snapshot (so the offset after `attempt`
equals the offset before it) and returns that same Failure object; if `p`
succeeds, the advanced context is kept untouched and `p`'s value returned.
Concretely, `oneOf(attempt(seq($2, symbol("@"), match("a"))), constant("z"))`
on `"@b"` returns `"z"`. -/
theorem claim_C2_attempt :
    (∀ (A : Type) (p : Parser A) (s : Str) (c : Context) (e : Err) (c1 : Context),
      p s c = (.err e, c1) →
        attempt p s c = (.err e, { c1 with offset := c.offset })) ∧
    (∀ (A : Type) (p : Parser A) (s : Str) (c : Context) (a : A) (c1 : Context),
      p s c = (.ok a, c1) → attempt p s c = (.ok a, c1)) ∧
    runValue
      (oneOf [attempt (seq2 S2 (symbol (str "@")) (matchP (regexLit (str "a")))),
        constant (str "z")]) (str "@b") = some (str "z") := by
  refine ⟨?_, ?_, rfl⟩
  · intro A p s c e c1 h
    unfold attempt
    rw [h]
  · intro A p s c a c1 h
    unfold attempt
    rw [h]

theorem claim_C2_attempt_witness :
    matchP (regexLit (str "a")) (str "b") Context.init =
      (.err (.mk Scope.root 0 "Did not match \"a\""), Context.init) ∧
    attempt (matchP (regexLit (str "a"))) (str "b") Context.init =
      (.err (.mk Scope.root 0 "Did not match \"a\""),
        { Context.init with offset := Context.init.offset }) ∧
    matchP (regexLit (str "a")) (str "ab") Context.init =
      (.ok (str "a"), ⟨1, Scope.root⟩) ∧
    attempt (matchP (regexLit (str "a"))) (str "ab") Context.init =
      (.ok (str "a"), ⟨1, Scope.root⟩) :=
  ⟨rfl, claim_C2_attempt.1 _ _ _ _ _ _ rfl, rfl,
    claim_C2_attempt.2.1 _ _ _ _ _ _ rfl⟩

/-- C10: `guard(g, p)`: if `g` succeeds, its value is returned and `p` is
never run (the result does not depend on `p` at all); if `g` fails, `g`'s
Failure is discarded and `p` runs on the context exactly as the failing `g`
left it — the offset is not rolled back first.  Concretely,
`guard(seq($1, match("a"), match("a")), match("ab"))` on `"ab"` runs
`match("ab")` at offset 1 (the offset the failing guarder reached) and
therefore fails at offset 1. -/
theorem claim_C10_guard :
    (∀ (A : Type) (g p q : Parser A) (s : Str) (c : Context) (a : A) (c1 : Context),
      g s c = (.ok a, c1) →
        guard g p s c = (.ok a, c1) ∧ guard g p s c = guard g q s c) ∧
    (∀ (A : Type) (g p : Parser A) (s : Str) (c : Context) (e : Err) (c1 : Context),
      g s c = (.err e, c1) → guard g p s c = p s c1) ∧
    guard (seq2 S1 (matchP (regexLit (str "a"))) (matchP (regexLit (str "a"))))
        (matchP (regexLit (str "ab"))) (str "ab") Context.init =
      matchP (regexLit (str "ab")) (str "ab") ⟨1, Scope.root⟩ ∧
    runErrOffset
      (guard (seq2 S1 (matchP (regexLit (str "a"))) (matchP (regexLit (str "a"))))
        (matchP (regexLit (str "ab")))) (str "ab") = some 1 := by
  refine ⟨?_, ?_, rfl, rfl⟩
  · intro A g p q s c a c1 h
    constructor <;> unfold guard <;> rw [h]
  · intro A g p s c e c1 h
    unfold guard
    rw [h]

theorem claim_C10_guard_witness :
    constant (str "y") (str "ab") Context.init = (.ok (str "y"), Context.init) ∧
    guard (constant (str "y")) (matchP (regexLit (str "a"))) (str "ab") Context.init =
      (.ok (str "y"), Context.init) ∧
    matchP (regexLit (str "a")) (str "b") Context.init =
      (.err (.mk Scope.root 0 "Did not match \"a\""), Context.init) ∧
    guard (matchP (regexLit (str "a"))) (constant (str "y")) (str "b") Context.init =
      constant (str "y") (str "b") Context.init :=
  ⟨rfl, (claim_C10_guard.1 _ _ _ (constant (str "y")) _ _ _ _ rfl).1, rfl,
    claim_C10_guard.2.1 _ _ _ _ _ _ _ rfl⟩

/-- One step of the `oneOf` loop (direct unfolding of the definition). -/
theorem oneOfLoop_cons {A : Type} (s : Str) (total oo : Nat) (p : Parser A)
    (ps : List (Parser A)) (errors : List Err) (c : Context) :
    oneOfLoop s total oo (p :: ps) errors c =
      match p s c with
      | (.ok a, c1) => (.ok a, c1)
      | (.exn m, c1) => (.exn m, c1)
      | (.err e, c1) =>
        if oo = c1.offset then oneOfLoop s total oo ps (e :: errors) c1
        else (.err e, c1) := rfl

/-- C1: `oneOf(p1, ..., pn)` records the context offset once, before the whole
alternation begins, and tries each parser in order on the same context.  After
a failing attempt, if the current offset still equals the recorded one, the
failure is pushed onto the error list and the next alternative is tried;
otherwise the Failure is returned immediately and no further alternatives are
tried.  Concretely, `oneOf(seq($1, match("a"), match("a")), match("ab"))` on
`"ab"` fails at offset 1 (not 0), and the result is the same whatever the
second alternative is — `match("ab")` is never tried. -/
theorem claim_C1_oneOf :
    (∀ (A : Type) (ps : List (Parser A)),
      oneOf ps = fun s c => oneOfLoop s ps.length c.offset ps [] c) ∧
    (∀ (A : Type) (p : Parser A) (ps : List (Parser A)) (s : Str)
        (total oo : Nat) (errors : List Err) (c : Context) (e : Err) (c1 : Context),
      p s c = (.err e, c1) →
        (oo = c1.offset →
          oneOfLoop s total oo (p :: ps) errors c =
            oneOfLoop s total oo ps (e :: errors) c1) ∧
        (oo ≠ c1.offset → oneOfLoop s total oo (p :: ps) errors c = (.err e, c1))) ∧
    runErrOffset
      (oneOf [seq2 S1 (matchP (regexLit (str "a"))) (matchP (regexLit (str "a"))),
        matchP (regexLit (str "ab"))]) (str "ab") = some 1 ∧
    (∀ (q : Parser Str),
      oneOf [seq2 S1 (matchP (regexLit (str "a"))) (matchP (regexLit (str "a"))), q]
          (str "ab") Context.init =
        (.err (.mk Scope.root 1 "Did not match \"a\""), ⟨1, Scope.root⟩)) := by
  refine ⟨fun A ps => rfl, ?_, rfl, fun q => rfl⟩
  intro A p ps s total oo errors c e c1 h
  constructor <;> intro hoo <;> rw [oneOfLoop_cons, h] <;> dsimp only
  · rw [if_pos hoo]
  · rw [if_neg hoo]

theorem claim_C1_oneOf_witness :
    matchP (regexLit (str "b")) (str "ab") Context.init =
      (.err (.mk Scope.root 0 "Did not match \"b\""), Context.init) ∧
    oneOfLoop (str "ab") 1 0 [matchP (regexLit (str "b"))] [] Context.init =
      oneOfLoop (str "ab") 1 0 []
        [.mk Scope.root 0 "Did not match \"b\""] Context.init ∧
    seq2 S1 (matchP (regexLit (str "a"))) (matchP (regexLit (str "a")))
        (str "ab") Context.init =
      (.err (.mk Scope.root 1 "Did not match \"a\""), ⟨1, Scope.root⟩) ∧
    oneOfLoop (str "ab") 1 0
        [seq2 S1 (matchP (regexLit (str "a"))) (matchP (regexLit (str "a")))]
        [] Context.init =
      (.err (.mk Scope.root 1 "Did not match \"a\""), ⟨1, Scope.root⟩) := by
  refine ⟨rfl, ?_, rfl, ?_⟩
  · exact (claim_C1_oneOf.2.1 Str (matchP (regexLit (str "b"))) [] (str "ab")
      1 0 [] Context.init _ _ rfl).1 rfl
  · exact (claim_C1_oneOf.2.1 Str
      (seq2 S1 (matchP (regexLit (str "a"))) (matchP (regexLit (str "a")))) []
      (str "ab") 1 0 [] Context.init _ _ rfl).2 (by decide)

/-- C9: `withContext(name, p)` returns exactly the result `p` returns and
leaves the offset exactly where `p` leaves it; and — for any `p` that leaves
the scope stack as it found it, which is the Context contract every parser
built from this library's combinators obeys (the only code that manipulates
the scope is `withContext` itself, and it is push/pop balanced) — the scope
stack is restored to its pre-call value whether `p` succeeded or failed. -/
theorem claim_C9_withContext :
    (∀ (A : Type) (nm : String) (p : Parser A) (s : Str) (c : Context)
        (a : A) (c1 : Context),
      p s { c with scope := .node c.offset nm c.scope } = (.ok a, c1) →
        withContext nm p s c = (.ok a, { c1 with scope := c1.scope.parentD })) ∧
    (∀ (A : Type) (nm : String) (p : Parser A) (s : Str) (c : Context)
        (e : Err) (c1 : Context),
      p s { c with scope := .node c.offset nm c.scope } = (.err e, c1) →
        withContext nm p s c = (.err e, { c1 with scope := c1.scope.parentD })) ∧
    (∀ (A : Type) (nm : String) (p : Parser A) (s : Str) (c : Context)
        (a : A) (c1 : Context),
      p s { c with scope := .node c.offset nm c.scope } = (.ok a, c1) →
      c1.scope = .node c.offset nm c.scope →
        withContext nm p s c = (.ok a, ⟨c1.offset, c.scope⟩)) ∧
    (∀ (A : Type) (nm : String) (p : Parser A) (s : Str) (c : Context)
        (e : Err) (c1 : Context),
      p s { c with scope := .node c.offset nm c.scope } = (.err e, c1) →
      c1.scope = .node c.offset nm c.scope →
        withContext nm p s c = (.err e, ⟨c1.offset, c.scope⟩)) := by
  have hok : ∀ (A : Type) (nm : String) (p : Parser A) (s : Str) (c : Context)
      (a : A) (c1 : Context),
      p s { c with scope := .node c.offset nm c.scope } = (.ok a, c1) →
        withContext nm p s c = (.ok a, { c1 with scope := c1.scope.parentD }) := by
    intro A nm p s c a c1 h
    unfold withContext
    rw [h]
  have herr : ∀ (A : Type) (nm : String) (p : Parser A) (s : Str) (c : Context)
      (e : Err) (c1 : Context),
      p s { c with scope := .node c.offset nm c.scope } = (.err e, c1) →
        withContext nm p s c = (.err e, { c1 with scope := c1.scope.parentD }) := by
    intro A nm p s c e c1 h
    unfold withContext
    rw [h]
  refine ⟨hok, herr, ?_, ?_⟩
  · intro A nm p s c a c1 h hbal
    rw [hok A nm p s c a c1 h, hbal]
    rfl
  · intro A nm p s c e c1 h hbal
    rw [herr A nm p s c e c1 h, hbal]
    rfl

theorem claim_C9_withContext_witness :
    matchP (regexLit (str "a")) (str "ab")
        { Context.init with scope := .node 0 "letter" Context.init.scope } =
      (.ok (str "a"), ⟨1, .node 0 "letter" Scope.root⟩) ∧
    withContext "letter" (matchP (regexLit (str "a"))) (str "ab") Context.init =
      (.ok (str "a"), ⟨1, Scope.root⟩) ∧
    matchP (regexLit (str "b")) (str "ab")
        { Context.init with scope := .node 0 "letter" Context.init.scope } =
      (.err (.mk (.node 0 "letter" Scope.root) 0 "Did not match \"b\""),
        ⟨0, .node 0 "letter" Scope.root⟩) ∧
    withContext "letter" (matchP (regexLit (str "b"))) (str "ab") Context.init =
      (.err (.mk (.node 0 "letter" Scope.root) 0 "Did not match \"b\""),
        ⟨0, Scope.root⟩) :=
  ⟨rfl, claim_C9_withContext.2.2.1 _ _ _ _ _ _ _ rfl rfl, rfl,
    claim_C9_withContext.2.2.2 _ _ _ _ _ _ _ rfl rfl⟩

/-- C4: in `map(f, p)`, the `toError` callback first resets the context offset
to the value it had before `p` ran and then builds the Failure at that pre-`p`
offset (with the current scope); and a non-Failure exception thrown by `f` —
or anywhere inside a parser — propagates through `map` and through `run`
unchanged: it is never converted into a Failure or a ParseError. -/
theorem claim_C4_map :
    (∀ (A B : Type) (f : A → FResult B) (p : Parser A) (s : Str) (c : Context)
        (a : A) (c1 : Context) (msg : String),
      p s c = (.ok a, c1) → f a = .toError msg →
        mapP f p s c =
          (.err (.mk c1.scope c.offset msg), { c1 with offset := c.offset })) ∧
    (∀ (A B : Type) (f : A → FResult B) (p : Parser A) (s : Str) (c : Context)
        (a : A) (c1 : Context) (m : String),
      p s c = (.ok a, c1) → f a = .exn m → mapP f p s c = (.exn m, c1)) ∧
    (∀ (A : Type) (p : Parser A) (s : Str) (m : String) (c' : Context),
      p s Context.init = (.exn m, c') → run p s = .exn m) := by
  refine ⟨?_, ?_, ?_⟩
  · intro A B f p s c a c1 msg hp hf
    unfold mapP
    rw [hp]
    dsimp only
    rw [hf]
  · intro A B f p s c a c1 m hp hf
    unfold mapP
    rw [hp]
    dsimp only
    rw [hf]
  · intro A p s m c' hp
    unfold run
    rw [hp]

theorem claim_C4_map_witness :
    matchP (regexLit (str "a")) (str "ab") Context.init =
      (.ok (str "a"), ⟨1, Scope.root⟩) ∧
    (fun _ : Str => (FResult.toError "rejected" : FResult Nat)) (str "a") =
      .toError "rejected" ∧
    mapP (fun _ : Str => (FResult.toError "rejected" : FResult Nat))
        (matchP (regexLit (str "a"))) (str "ab") Context.init =
      (.err (.mk Scope.root 0 "rejected"), ⟨0, Scope.root⟩) ∧
    (fun _ : Str => (FResult.exn "boom" : FResult Nat)) (str "a") = .exn "boom" ∧
    mapP (fun _ : Str => (FResult.exn "boom" : FResult Nat))
        (matchP (regexLit (str "a"))) (str "ab") Context.init =
      (.exn "boom", ⟨1, Scope.root⟩) ∧
    run (mapP (fun _ : Str => (FResult.exn "boom" : FResult Nat))
        (matchP (regexLit (str "a")))) (str "ab") = .exn "boom" := by
  refine ⟨rfl, rfl, ?_, rfl, ?_, ?_⟩
  · exact claim_C4_map.1 Str Nat (fun _ => .toError "rejected")
      (matchP (regexLit (str "a"))) (str "ab") Context.init (str "a")
      ⟨1, Scope.root⟩ "rejected" rfl rfl
  · exact claim_C4_map.2.1 Str Nat (fun _ => .exn "boom")
      (matchP (regexLit (str "a"))) (str "ab") Context.init (str "a")
      ⟨1, Scope.root⟩ "boom" rfl rfl
  · exact claim_C4_map.2.2 Nat
      (mapP (fun _ : Str => (FResult.exn "boom" : FResult Nat))
        (matchP (regexLit (str "a")))) (str "ab") "boom" ⟨1, Scope.root⟩ rfl

/-- C3: `many(p)` terminates on every finite input for every item parser
satisfying the engine's cursor contract (the offset never moves backwards and
never escapes the source — true of every parser built from this library),
*even when `p` can succeed without advancing*: the `while (true)` loop reaches
its exit within `source.length + 2` iterations.  An iteration whose parse
does not advance the offset ends the loop normally with the items collected
so far (whether that parse succeeded or failed), an iteration where the
parser fails after consuming input returns that Failure, and
`many(match(".*"))` on `"foo"` returns exactly `["foo"]`. -/
theorem claim_C3_many :
    (∀ (A : Type) (item : Parser A), OffsetMono item → OffsetBounded item →
      ∀ (s : Str) (c : Context), ∃ out,
        manyLoop item s (s.length + 2) [] c = some out ∧ many item s c = out) ∧
    (∀ (A : Type) (item : Parser A) (s : Str) (fuel : Nat) (items : List A)
        (c : Context) (a : A) (c1 : Context),
      item s c = (.ok a, c1) → c1.offset = c.offset →
        manyLoop item s (fuel + 1) items c = some (.ok items.reverse, c1)) ∧
    (∀ (A : Type) (item : Parser A) (s : Str) (fuel : Nat) (items : List A)
        (c : Context) (e : Err) (c1 : Context),
      item s c = (.err e, c1) → c1.offset = c.offset →
        manyLoop item s (fuel + 1) items c = some (.ok items.reverse, c1)) ∧
    (∀ (A : Type) (item : Parser A) (s : Str) (fuel : Nat) (items : List A)
        (c : Context) (e : Err) (c1 : Context),
      item s c = (.err e, c1) → c1.offset ≠ c.offset →
        manyLoop item s (fuel + 1) items c = some (.err e, c1)) ∧
    runValue (many (matchP regexDotStar)) (str "foo") = some [str "foo"] := by
  refine ⟨?_, ?_, ?_, ?_, rfl⟩
  · intro A item hm hb s c
    exact many_eq_loop item hm hb s c
  · intro A item s fuel items c a c1 h hoo
    unfold manyLoop
    rw [h]
    dsimp only
    rw [if_pos hoo.symm]
  · intro A item s fuel items c e c1 h hoo
    unfold manyLoop
    rw [h]
    dsimp only
    rw [if_pos hoo.symm]
  · intro A item s fuel items c e c1 h hoo
    unfold manyLoop
    rw [h]
    dsimp only
    rw [if_neg (fun hx => hoo hx.symm)]

theorem claim_C3_many_witness :
    OffsetMono (matchP regexDotStar) ∧ OffsetBounded (matchP regexDotStar) ∧
    (∃ out,
      manyLoop (matchP regexDotStar) (str "foo") ((str "foo").length + 2) []
          Context.init = some out ∧
        many (matchP regexDotStar) (str "foo") Context.init = out) ∧
    matchP regexDotStar (str "foo") ⟨3, Scope.root⟩ =
      (.ok [], ⟨3, Scope.root⟩) ∧
    manyLoop (matchP regexDotStar) (str "foo") 1 [str "foo"] ⟨3, Scope.root⟩ =
      some (.ok [str "foo"], ⟨3, Scope.root⟩) ∧
    matchP (regexLit (str "ab")) (str "ab") Context.init =
      (.ok (str "ab"), ⟨2, Scope.root⟩) ∧
    expectString (str "c") "string" (str "ab") ⟨2, Scope.root⟩ =
      (.err (.mk Scope.root 2 "Could not find string \"c\""), ⟨2, Scope.root⟩) ∧
    manyLoop (seq2 S2 (matchP (regexLit (str "ab"))) (expectString (str "c") "string"))
        (str "ab") 1 [] Context.init =
      some (.err (.mk Scope.root 2 "Could not find string \"c\""), ⟨2, Scope.root⟩) := by
  have hm : OffsetMono (matchP regexDotStar) := offsetMono_matchP _
  have hb : OffsetBounded (matchP regexDotStar) :=
    offsetBounded_matchP _ regexBounded_dotStar
  refine ⟨hm, hb, claim_C3_many.1 _ _ hm hb _ _, rfl, ?_, rfl, rfl, ?_⟩
  · exact claim_C3_many.2.1 _ _ _ 0 [str "foo"] _ _ _ rfl rfl
  · exact claim_C3_many.2.2.2.1 _ _ _ 0 [] _ _ _ rfl (by decide)

/-- One step of the `manyUntil` loop (direct unfolding of the definition). -/
theorem manyUntilLoop_cons {A B : Type} (endPr : Parser B) (item : Parser A)
    (s : Str) (fuel : Nat) (items : List A) (c : Context) :
    manyUntilLoop endPr item s (fuel + 1) items c =
      match endPr s c with
      | (.exn m, c1) => some (.exn m, c1)
      | (.ok _, c1) => some (.ok items.reverse, c1)
      | (.err _, c1) =>
        match item s c1 with
        | (.exn m, c2) => some (.exn m, c2)
        | (.err e, c2) => some (.err e, c2)
        | (.ok a, c2) => manyUntilLoop endPr item s fuel (a :: items) c2 := rfl

/-- C6 counterexample: the claim says the end check of `manyUntil` consumes
nothing when the end parser fails, for *every* end parser.  Take
`end = seq($1, match("a"), match("b"))`, `item = match("c")`, input `"acab"`.
On the first check the end parser fails but leaves the offset at 1 (it
consumed the `"a"`); `match("c")` cannot match at offset 0 (shown below), yet
`manyUntil` succeeds with `["c"]` — the item parser was run at offset 1, so
the failing end check did consume input. -/
theorem claim_C6_counterexample :
    seq2 S1 (matchP (regexLit (str "a"))) (matchP (regexLit (str "b")))
        (str "acab") Context.init =
      (.err (.mk Scope.root 1 "Did not match \"b\""), ⟨1, Scope.root⟩) ∧
    (⟨1, Scope.root⟩ : Context).offset ≠ Context.init.offset ∧
    matchP (regexLit (str "c")) (str "acab") Context.init =
      (.err (.mk Scope.root 0 "Did not match \"c\""), Context.init) ∧
    manyUntil (seq2 S1 (matchP (regexLit (str "a"))) (matchP (regexLit (str "b"))))
        (matchP (regexLit (str "c"))) (str "acab") Context.init =
      (.ok [str "c"], ⟨4, Scope.root⟩) :=
  ⟨rfl, by decide, rfl, rfl⟩

/-- C6 (amended): the `manyUntil`/`sepUntil`/`sepUntil1` loops terminate
successfully the moment the end parser matches at the current position, rather
than on item-parser failure; the end check leaves the offset wherever the end
parser leaves it — in particular it consumes nothing when the end parser fails
*without consuming* (but a partially-consuming failing end parser does move
the cursor); and in the `sepUntil` forms a dangling separator (separator
matched but the following item then fails) makes the whole combinator fail
with that item Failure, not stop gracefully. -/
theorem claim_C6_until :
    (∀ (A B : Type) (endPr : Parser B) (item : Parser A) (s : Str) (fuel : Nat)
        (items : List A) (c : Context) (v : B) (c1 : Context),
      endPr s c = (.ok v, c1) →
        manyUntilLoop endPr item s (fuel + 1) items c =
          some (.ok items.reverse, c1)) ∧
    (∀ (A B : Type) (endPr : Parser B) (item : Parser A) (s : Str) (fuel : Nat)
        (items : List A) (c : Context) (e0 : Err) (c1 : Context) (a : A)
        (c2 : Context),
      endPr s c = (.err e0, c1) → item s c1 = (.ok a, c2) →
        manyUntilLoop endPr item s (fuel + 1) items c =
          manyUntilLoop endPr item s fuel (a :: items) c2) ∧
    (∀ (A B : Type) (endPr : Parser B) (item : Parser A) (s : Str) (fuel : Nat)
        (items : List A) (c : Context) (e0 : Err) (c1 : Context) (e : Err)
        (c2 : Context),
      endPr s c = (.err e0, c1) → item s c1 = (.err e, c2) →
        manyUntilLoop endPr item s (fuel + 1) items c = some (.err e, c2)) ∧
    (∀ (A B C' : Type) (endPr : Parser C') (sep : Parser B) (item : Parser A),
      sepUntil1 endPr sep item =
        seq2 consHT item (manyUntil endPr (seq2 S2 sep item)) ∧
      sepUntil endPr sep item =
        guard (mapP (fun _ => .ok []) endPr) (sepUntil1 endPr sep item)) ∧
    runErrOffset (sepUntil1 (symbol (str "]")) (symbol (str ",")) (int regexDigits))
      (str "1,]") = some 2 ∧
    runErrOffset (sepUntil (symbol (str "]")) (symbol (str ",")) (int regexDigits))
      (str "1,]") = some 2 := by
  refine ⟨?_, ?_, ?_, fun _ _ _ _ _ _ => ⟨rfl, rfl⟩, rfl, rfl⟩
  · intro A B endPr item s fuel items c v c1 h
    rw [manyUntilLoop_cons, h]
  · intro A B endPr item s fuel items c e0 c1 a c2 hend hitem
    rw [manyUntilLoop_cons, hend]
    dsimp only
    rw [hitem]
  · intro A B endPr item s fuel items c e0 c1 e c2 hend hitem
    rw [manyUntilLoop_cons, hend]
    dsimp only
    rw [hitem]

theorem claim_C6_until_witness :
    symbol (str "]") (str "]") Context.init = (.ok (), ⟨1, Scope.root⟩) ∧
    manyUntilLoop (symbol (str "]")) (int regexDigits) (str "]") 1 []
        Context.init = some (.ok [], ⟨1, Scope.root⟩) ∧
    symbol (str "]") (str "1]") Context.init =
      (.err (.mk Scope.root 0 "Could not find symbol \"]\""), Context.init) ∧
    int regexDigits (str "1]") Context.init = (.ok 1, ⟨1, Scope.root⟩) ∧
    manyUntilLoop (symbol (str "]")) (int regexDigits) (str "1]") 1 []
        Context.init =
      manyUntilLoop (symbol (str "]")) (int regexDigits) (str "1]") 0 [1]
        ⟨1, Scope.root⟩ ∧
    symbol (str "]") (str "1,]") ⟨1, Scope.root⟩ =
      (.err (.mk Scope.root 1 "Could not find symbol \"]\""), ⟨1, Scope.root⟩) ∧
    seq2 S2 (symbol (str ",")) (int regexDigits) (str "1,]") ⟨1, Scope.root⟩ =
      (.err (.mk Scope.root 2 "Did not match \"[0-9]+\""), ⟨2, Scope.root⟩) ∧
    manyUntilLoop (symbol (str "]"))
        (seq2 S2 (symbol (str ",")) (int regexDigits)) (str "1,]") 1 []
        ⟨1, Scope.root⟩ =
      some (.err (.mk Scope.root 2 "Did not match \"[0-9]+\""), ⟨2, Scope.root⟩) := by
  refine ⟨rfl, ?_, rfl, rfl, ?_, rfl, rfl, ?_⟩
  · exact claim_C6_until.1 Int Unit (symbol (str "]")) (int regexDigits)
      (str "]") 0 [] Context.init () ⟨1, Scope.root⟩ rfl
  · exact claim_C6_until.2.1 Int Unit (symbol (str "]")) (int regexDigits)
      (str "1]") 0 [] Context.init _ Context.init 1 ⟨1, Scope.root⟩ rfl rfl
  · exact claim_C6_until.2.2.1 Int Unit (symbol (str "]"))
      (seq2 S2 (symbol (str ",")) (int regexDigits)) (str "1,]") 0 []
      ⟨1, Scope.root⟩ _ ⟨1, Scope.root⟩ _ ⟨2, Scope.root⟩ rfl rfl

/-- C7: every failure a combinator returns is recorded at an offset at least
the offset at which that combinator started (`ErrOffsetGE`, established for
each primitive and preserved by every combinator of the library); the
primitives record the failure at exactly the context offset at the instant of
failure; and the rollback performed by an enclosing `attempt` never rewrites
an already-constructed Failure — the `Err` value is propagated unchanged, only
the context's offset is restored. -/
theorem claim_C7_err_offset_invariant :
    (∀ re, ErrOffsetGE (matchP re)) ∧
    (∀ re (s : Str) (c : Context) (e : Err) (c' : Context),
      matchP re s c = (.err e, c') → e.offset = c.offset ∧ c' = c) ∧
    (∀ (pat : Str) (nm : String), ErrOffsetGE (expectString pat nm)) ∧
    ErrOffsetGE endP ∧
    (∀ (A : Type) (t : A), ErrOffsetGE (constant t)) ∧
    (∀ (A B C' : Type) (f : A → B → C') (p : Parser A) (q : Parser B),
      OffsetMono p → ErrOffsetGE p → ErrOffsetGE q → ErrOffsetGE (seq2 f p q)) ∧
    (∀ (A B : Type) (f : A → FResult B) (p : Parser A),
      ErrOffsetGE p → ErrOffsetGE (mapP f p)) ∧
    (∀ (A : Type) (ps : List (Parser A)),
      (∀ p ∈ ps, ErrOffsetGE p) → ErrOffsetGE (oneOf ps)) ∧
    (∀ (A : Type) (g p : Parser A),
      OffsetMono g → ErrOffsetGE p → ErrOffsetGE (guard g p)) ∧
    (∀ (A : Type) (p : Parser A), ErrOffsetGE p → ErrOffsetGE (attempt p)) ∧
    (∀ (A : Type) (p : Parser A) (s : Str) (c : Context) (e : Err) (c' : Context),
      attempt p s c = (.err e, c') →
        ∃ c1, p s c = (.err e, c1) ∧ c' = { c1 with offset := c.offset }) ∧
    (∀ (A : Type) (nm : String) (p : Parser A),
      ErrOffsetGE p → ErrOffsetGE (withContext nm p)) ∧
    (∀ (A : Type) (item : Parser A),
      OffsetMono item → ErrOffsetGE item → ErrOffsetGE (many item)) ∧
    (∀ (A B : Type) (endPr : Parser B) (item : Parser A),
      OffsetMono endPr → OffsetMono item → ErrOffsetGE item →
        ErrOffsetGE (manyUntil endPr item)) := by
  refine ⟨errGE_matchP, ?_, errGE_expectString, errGE_endP,
    fun A t => errGE_constant t,
    fun A B C' f p q hm h1 h2 => errGE_seq2 f p q hm h1 h2,
    fun A B f p h => errGE_mapP f p h,
    fun A ps h => errGE_oneOf ps h,
    fun A g p hgm hp => errGE_guard g p hgm hp,
    fun A p h => errGE_attempt p h,
    fun A p s c e c' h => attempt_err_unchanged p s c e c' h,
    fun A nm p h => errGE_withContext nm p h,
    fun A item hm he => errGE_many item hm he,
    fun A B endPr item hem him hie => errGE_manyUntil endPr item hem him hie⟩
  intro re s c e c' h
  obtain ⟨hc, he⟩ := errEq_matchP re s c e c' h
  subst he
  exact ⟨rfl, hc⟩

theorem claim_C7_err_offset_invariant_witness :
    ErrOffsetGE (matchP (regexLit (str "a"))) ∧
    (Err.mk Scope.root 0 "Did not match \"a\"").offset = Context.init.offset ∧
    ErrOffsetGE (seq2 S2 (matchP (regexLit (str "a")))
      (expectString (str "b") "string")) ∧
    ErrOffsetGE (mapP (fun _ : Str => (FResult.ok 0 : FResult Nat))
      (matchP (regexLit (str "a")))) ∧
    ErrOffsetGE (oneOf [matchP (regexLit (str "a"))]) ∧
    ErrOffsetGE (guard (expectString (str "a") "string")
      (expectString (str "b") "string")) ∧
    ErrOffsetGE (attempt (matchP (regexLit (str "a")))) ∧
    (∃ c1, matchP (regexLit (str "a")) (str "b") Context.init =
        (.err (.mk Scope.root 0 "Did not match \"a\""), c1) ∧
      Context.init = { c1 with offset := Context.init.offset }) ∧
    ErrOffsetGE (withContext "letter" (matchP (regexLit (str "a")))) ∧
    ErrOffsetGE (many (matchP (regexLit (str "a")))) ∧
    ErrOffsetGE (manyUntil (expectString (str "b") "string")
      (matchP (regexLit (str "a")))) := by
  obtain ⟨h1, h2, h3, h4, h5, h6, h7, h8, h9, h10, h11, h12, h13, h14⟩ :=
    claim_C7_err_offset_invariant
  have hma : ErrOffsetGE (matchP (regexLit (str "a"))) := h1 _
  have hmam : OffsetMono (matchP (regexLit (str "a"))) := offsetMono_matchP _
  have heb : ErrOffsetGE (expectString (str "b") "string") := h3 _ _
  refine ⟨hma, (h2 (regexLit (str "a")) (str "b") Context.init _ Context.init rfl).1,
    h6 _ _ _ S2 _ _ hmam hma heb,
    h7 _ _ _ _ hma,
    h8 _ [matchP (regexLit (str "a"))] ?_,
    h9 _ _ _ (offsetMono_expectString _ _) heb,
    h10 _ _ hma,
    h11 _ _ (str "b") Context.init (.mk Scope.root 0 "Did not match \"a\"")
      Context.init rfl,
    h12 _ "letter" _ hma,
    h13 _ _ hmam hma,
    h14 _ _ _ _ (offsetMono_expectString _ _) hmam hma⟩
  intro p hp
  rw [List.mem_singleton] at hp
  subst hp
  exact hma

end TypedParser
